import Mathlib

/-!
Verification development for the value-synthesis core of the `dmt` repository
(`internal/module/openapi.go`).

The Go code is shallowly embedded as follows:

* `map[string]any` runtime value trees (JSON-like) become `Value`;
  Go maps become association lists with replace-on-insert (`ainsert`),
  which matches Go map assignment `m[k] = v`; iteration order of Go maps
  is unspecified, the association-list order is the determinization.
* `spec.Schema` (go-openapi) becomes `Schema`, keeping exactly the fields
  the code reads: `Type` (`types`), `Properties`, `Items` (a pointer to a
  struct holding a pointer, hence `Option (Option Schema)`), `Enum`,
  `Default`, `Extensions`, `OneOf`, `AnyOf`, `AllOf`.  A nil Go slice is
  `none`, a non-nil (possibly empty) slice is `some list`, mirroring the
  `!= nil` dispatch tests in `parseProperty`.
* fallible Go functions return `RRes`: `.ok` for a normal return, `.goError`
  for a returned `error`, `.runtimeFault` for a runtime panic (index out of
  range / nil dereference).  Recursion over the open-ended schema tree is
  driven by an explicit fuel counter; exhaustion is the distinct marker
  `.noFuel` so that theorems relating fuel `n+1` to fuel `n` are exact
  unfoldings of the Go call graph.
* `mergo.Merge(&dst, src, mergo.WithOverride)` on `map[string]any` trees
  (library `dario.cat/mergo`) is modelled by `mergoMergeObj`: the merge
  walks the keys of `src`; a key absent from `dst` is inserted; when both
  sides hold maps they are merged recursively key by key (mergo's
  documented recursive map merge; `WithOverride` makes the `src` side win
  at non-map conflicts); a non-map `src` element overrides.  The corner
  where a non-empty non-map `dst` element meets a map `src` element keeps
  the `dst` element (mergo skips the overwrite for map-typed sources after
  the recursive call), and mergo's `isEmptyValue` is `isEmptyVal`.
  A top-level `Merge` whose two arguments are not both maps fails with
  `ErrDifferentArgumentsTypes`, modelled as a `.goError`.
-/

/-- JSON-like runtime value (`any` in Go): scalar, sequence, or string map. -/
inductive Value where
  | null
  | boolV (b : Bool)
  | intV (n : Int)
  | strV (s : String)
  | arrV (elems : List Value)
  | objV (fields : List (String × Value))

/-- Association list standing for a Go `map[string]α`. -/
abbrev SMap (α : Type) := List (String × α)

/-- Go map read `m[k]` (presence); keys are unique in a Go map. -/
def alookup {α : Type} (k : String) : SMap α → Option α
  | [] => none
  | (k', v) :: rest => if k' = k then some v else alookup k rest

/-- Go map write `m[k] = v`: replaces the binding if present, else appends. -/
def ainsert {α : Type} (k : String) (v : α) : SMap α → SMap α
  | [] => [(k, v)]
  | (k', v') :: rest => if k' = k then (k, v) :: rest else (k', v') :: ainsert k v rest

/-- Model of mergo's `isEmptyValue` on the values that can occur here:
the zero value of each shape is empty. -/
def isEmptyVal : Value → Bool
  | .null => true
  | .boolV false => true
  | .intV 0 => true
  | .strV "" => true
  | .arrV [] => true
  | .objV [] => true
  | _ => false

mutual
/-- Model of `mergo.Merge(&dst, src, mergo.WithOverride)` restricted to two
`map[string]any` values (the only shape the repository passes at top level):
walk the keys of `src` and merge each element into `dst`. -/
def mergoMergeObj (dst src : SMap Value) : SMap Value :=
  match src with
  | [] => dst
  | (k, sv) :: rest =>
    let dst' :=
      match alookup k dst with
      | none => ainsert k sv dst
      | some dv => ainsert k (mergoElem dv sv) dst
    mergoMergeObj dst' rest
termination_by sizeOf src
decreasing_by all_goals simp_wf <;> omega

/-- Per-key element merge of mergo with `WithOverride`: map-with-map merges
recursively; a map source meeting a non-empty non-map destination is skipped
(the destination survives); otherwise the source overrides. -/
def mergoElem (dv sv : Value) : Value :=
  match dv, sv with
  | .objV dfields, .objV sfields => .objV (mergoMergeObj dfields sfields)
  | _, .objV _ => if isEmptyVal dv then sv else dv
  | _, _ => sv
termination_by sizeOf sv
decreasing_by all_goals simp_wf
end

/-- Schema node: the fields of `go-openapi/spec.Schema` that
`internal/module/openapi.go` reads.  `items` models Go's
`Items *SchemaOrArray` together with `Items.Schema *Schema`
(`none` = `Items == nil`, `some none` = `Items.Schema == nil`).
`oneOf`/`anyOf`/`allOf` distinguish a nil slice (`none`) from a non-nil
slice (`some l`), since `parseProperty` dispatches on `!= nil`. -/
inductive Schema where
  | mk : (types : List String) → (properties : List (String × Schema)) →
         (items : Option (Option Schema)) → (enumVals : List Value) →
         (defaultVal : Option Value) → (extensions : List (String × Value)) →
         (oneOf : Option (List Schema)) → (anyOf : Option (List Schema)) →
         (allOf : Option (List Schema)) → Schema

def Schema.types : Schema → List String
  | .mk t _ _ _ _ _ _ _ _ => t

def Schema.properties : Schema → SMap Schema
  | .mk _ pr _ _ _ _ _ _ _ => pr

def Schema.items : Schema → Option (Option Schema)
  | .mk _ _ it _ _ _ _ _ _ => it

def Schema.enumVals : Schema → List Value
  | .mk _ _ _ en _ _ _ _ _ => en

def Schema.defaultVal : Schema → Option Value
  | .mk _ _ _ _ df _ _ _ _ => df

def Schema.extensions : Schema → SMap Value
  | .mk _ _ _ _ _ ex _ _ _ => ex

def Schema.oneOf : Schema → Option (List Schema)
  | .mk _ _ _ _ _ _ oo _ _ => oo

def Schema.anyOf : Schema → Option (List Schema)
  | .mk _ _ _ _ _ _ _ ao _ => ao

def Schema.allOf : Schema → Option (List Schema)
  | .mk _ _ _ _ _ _ _ _ al => al

/-- The zero `spec.Schema` value. -/
def Schema.empty : Schema := .mk [] [] none [] none [] none none none

/-- Record update used by `mergeSchemas` for `rootSchema.Properties = ...`. -/
def Schema.setProperties : Schema → SMap Schema → Schema
  | .mk t _ it en df ex oo ao al, pr => .mk t pr it en df ex oo ao al

/-- Record update for the three assignments
`rootSchema.OneOf = ...; rootSchema.AllOf = ...; rootSchema.AnyOf = ...`. -/
def Schema.setComps : Schema → Option (List Schema) → Option (List Schema) →
    Option (List Schema) → Schema
  | .mk t pr it en df ex _ _ _, oo, ao, al => .mk t pr it en df ex oo ao al

/-- Record update for `moduleSchema.Default = make(map[string]any)`. -/
def Schema.setDefault : Schema → Option Value → Schema
  | .mk t pr it en _ ex oo ao al, df => .mk t pr it en df ex oo ao al

/-- The combined `prop.Items != nil && prop.Items.Schema != nil` access path. -/
def itemsSchemaOf (p : Schema) : Option Schema :=
  match p.items with
  | some (some s) => some s
  | _ => none

/-- Constant `ExamplesKey = "x-examples"`. -/
def ExamplesKey : String := "x-examples"

/-- Constant `ArrayObject = "array"`. -/
def ArrayObject : String := "array"

/-- Constant `ObjectKey = "object"`. -/
def ObjectKey : String := "object"

/-- Result of running a piece of the Go code: normal value, returned `error`,
runtime panic, or fuel exhaustion of the embedding. -/
inductive RRes (α : Type) where
  | ok (a : α)
  | goError (msg : String)
  | runtimeFault
  | noFuel

/-- Map over the normal result, propagating faults. -/
def rmap {α β : Type} (f : α → β) : RRes α → RRes β
  | .ok a => .ok (f a)
  | .goError m => .goError m
  | .runtimeFault => .runtimeFault
  | .noFuel => .noFuel

/-- Whether a run ended in a returned Go `error`. -/
def isGoErrorB {α : Type} : RRes α → Bool
  | .goError _ => true
  | _ => false

/-- Whether a value is the untyped nil / JSON null. -/
def Value.isNullB : Value → Bool
  | .null => true
  | _ => false

/-- Whether a value is a `map[string]any` mapping. -/
def Value.isObjB : Value → Bool
  | .objV _ => true
  | _ => false

/-- The dispatch test `prop.Extensions[ExamplesKey] != nil`: the stored value,
with a stored untyped nil (JSON null) counting as absent. -/
def extExamplesVal (p : Schema) : Option Value :=
  match alookup ExamplesKey p.extensions with
  | some v => if v.isNullB then none else some v
  | none => none

/-- The candidate example of `parseExamples`' type switch: first element of a
sequence, or the mapping itself; other shapes produce no candidate.  (The
empty-sequence case is the one that panics and is handled at the caller.) -/
def exampleCandidate (p : Schema) : Option Value :=
  match (alookup ExamplesKey p.extensions).getD Value.null with
  | .arrV (e :: _) => some e
  | .objV fs => some (.objV fs)
  | _ => none

/-- Function `mergeSchemas(rootSchema *spec.Schema, schemas ...spec.Schema)`:
clear the root's composition fields, then for each branch overlay its
properties (branch key wins) and overwrite the root's `OneOf`/`AllOf`/`AnyOf`
with the current branch's fields. -/
def overlayProps (dst src : SMap Schema) : SMap Schema :=
  src.foldl (fun d kv => ainsert kv.1 kv.2 d) dst

def mergeSchemas (root : Option Schema) (branches : List Schema) : Schema :=
  let r0 := (root.getD Schema.empty).setComps none none none
  branches.foldl
    (fun acc b =>
      (acc.setProperties (overlayProps acc.properties b.properties)).setComps
        b.oneOf b.anyOf b.allOf)
    r0

/-- One step of `parseExamples` after the candidate example has been read:
the `example != nil` guard, the object-typed merge, and the verbatim case.
`recProps` is the recursive `parseProperties` call. -/
def exampleStep (recProps : Schema → RRes (SMap Value)) (p : Schema)
    (ex : Value) : RRes (Option Value) :=
  if ex.isNullB then .ok none
  else if p.types.contains ObjectKey then
    match recProps p with
    | .ok t =>
      match ex with
      | .objV efs => .ok (some (.objV (mergoMergeObj t efs)))
      | _ => .goError "src and dst must be of same type"
    | .goError m => .goError m
    | .runtimeFault => .runtimeFault
    | .noFuel => .noFuel
  else .ok (some ex)

/-- Function `parseExamples`: type switch on the extension value; `conv[0]`
on an empty sequence is an out-of-range panic. -/
def parseExamplesAux (recProps : Schema → RRes (SMap Value)) (p : Schema) :
    RRes (Option Value) :=
  match (alookup ExamplesKey p.extensions).getD Value.null with
  | .arrV [] => .runtimeFault
  | .arrV (e :: _) => exampleStep recProps p e
  | .objV fs => exampleStep recProps p (.objV fs)
  | _ => .ok none

/-- Function `parseEnum`: `Enum[0]`, overridden by `Default` when set.  The
empty-enum access would panic; the dispatch guarantees non-emptiness. -/
def parseEnumAux (p : Schema) : RRes (Option Value) :=
  match p.enumVals with
  | [] => .runtimeFault
  | e :: _ => .ok (some (p.defaultVal.getD e))

/-- Function `parseObject`: recursively resolve and always set the key. -/
def parseObjectAux (recProps : Schema → RRes (SMap Value)) (p : Schema) :
    RRes (Option Value) :=
  rmap (fun t => some (.objV t)) (recProps p)

/-- Function `parseProperties` applied to a possibly-nil `*spec.Schema`
(`nil` yields `nil, nil`). -/
def parsePropertiesOpt (recProps : Schema → RRes (SMap Value)) :
    Option Schema → RRes (Option (SMap Value))
  | none => .ok none
  | some s => rmap some (recProps s)

/-- Function `parseArray`: item default verbatim when set, else the item
schema's properties; the `t != nil` guard only fails for a nil node. -/
def parseArrayAux (recProps : Schema → RRes (SMap Value)) (p : Schema) :
    RRes (Option Value) :=
  match itemsSchemaOf p with
  | none => .runtimeFault
  | some isch =>
    match isch.defaultVal with
    | some d => .ok (some d)
    | none =>
      match parsePropertiesOpt recProps (some isch) with
      | .ok (some t) => .ok (some (.objV t))
      | .ok none => .ok none
      | .goError m => .goError m
      | .runtimeFault => .runtimeFault
      | .noFuel => .noFuel

/-- Function `parseOneOf`: deep-copy the property (pure values: the copy is
the value itself), merge the `OneOf` branches over it, resolve the merged
node's properties and always set the key. -/
def parseOneOfAux (recProps : Schema → RRes (SMap Value)) (p : Schema) :
    RRes (Option Value) :=
  rmap (fun t => some (.objV t))
    (recProps (mergeSchemas (some p) (p.oneOf.getD [])))

/-- Function `parseAnyOf`: same as `parseOneOf` with the `AnyOf` branches. -/
def parseAnyOfAux (recProps : Schema → RRes (SMap Value)) (p : Schema) :
    RRes (Option Value) :=
  rmap (fun t => some (.objV t))
    (recProps (mergeSchemas (some p) (p.anyOf.getD [])))

/-- Function `parseProperty`: the dispatch switch, in source order.  Setting
`result[key]` is modelled by returning `some value`; producing no value by
`ok none`. -/
def parsePropertyAux (recProps : Schema → RRes (SMap Value)) (p : Schema) :
    RRes (Option Value) :=
  if (extExamplesVal p).isSome then parseExamplesAux recProps p
  else if 0 < p.enumVals.length then parseEnumAux p
  else if p.types.contains ObjectKey then parseObjectAux recProps p
  else if p.defaultVal.isSome then .ok p.defaultVal
  else if p.types.contains ArrayObject && (itemsSchemaOf p).isSome then
    parseArrayAux recProps p
  else if p.allOf.isSome then .ok none
  else if p.oneOf.isSome then parseOneOfAux recProps p
  else if p.anyOf.isSome then parseAnyOfAux recProps p
  else .ok none

/-- The loop body of `parseProperties`: iterate the properties, resolve each,
and write produced values into the result map. -/
def parsePropsList (resolver : Schema → RRes (Option Value)) :
    SMap Schema → SMap Value → RRes (SMap Value)
  | [], acc => .ok acc
  | (k, p) :: rest, acc =>
    match resolver p with
    | .ok none => parsePropsList resolver rest acc
    | .ok (some v) => parsePropsList resolver rest (ainsert k v acc)
    | .goError m => .goError m
    | .runtimeFault => .runtimeFault
    | .noFuel => .noFuel

/-- Function `parseProperties` on a non-nil node, with explicit fuel:
each level of schema nesting consumes one unit. -/
def parseProperties : Nat → Schema → RRes (SMap Value)
  | 0, _ => .noFuel
  | fuel + 1, node =>
    parsePropsList (parsePropertyAux (fun s => parseProperties fuel s))
      node.properties []

/-- Function `parseProperty` at a given recursion budget. -/
def parseProperty (fuel : Nat) (p : Schema) : RRes (Option Value) :=
  parsePropertyAux (fun s => parseProperties fuel s) p

/-- The last element of a branch list (`none` when empty). -/
def lastBranch : List Schema → Option Schema
  | [] => none
  | [b] => some b
  | _ :: rest => lastBranch rest

/-- Heap of schema cells: a Go pointer is an index.  `deepcopy.Copy` of a
cell allocates a fresh cell holding an equal value. -/
def mergeSchemasHeap (h : List Schema) (addr : Nat) (branches : List Schema) :
    List Schema :=
  h.set addr (mergeSchemas h[addr]? branches)

/-- Function `parseOneOf` against the heap: read the property cell, allocate
the deep copy as a fresh cell, run the (mutating) merge on that fresh cell,
then resolve the merged node's properties.  Returns the final heap and the
produced mapping. -/
def parseOneOfHeap (fuel : Nat) (h : List Schema) (addr : Nat) :
    List Schema × RRes (SMap Value) :=
  match h[addr]? with
  | none => (h, .runtimeFault)
  | some prop =>
    let copyAddr := h.length
    let h1 := h ++ [prop]
    let h2 := mergeSchemasHeap h1 copyAddr (prop.oneOf.getD [])
    match h2[copyAddr]? with
    | some merged => (h2, parseProperties fuel merged)
    | none => (h2, .runtimeFault)

/-- Function `parseAnyOf` against the heap (same shape with `AnyOf`). -/
def parseAnyOfHeap (fuel : Nat) (h : List Schema) (addr : Nat) :
    List Schema × RRes (SMap Value) :=
  match h[addr]? with
  | none => (h, .runtimeFault)
  | some prop =>
    let copyAddr := h.length
    let h1 := h ++ [prop]
    let h2 := mergeSchemasHeap h1 copyAddr (prop.anyOf.getD [])
    match h2[copyAddr]? with
    | some merged => (h2, parseProperties fuel merged)
    | none => (h2, .runtimeFault)

/-- One schema storage (`valuesvalidation` side): `Schemas map[string]*spec.Schema`,
a nil map being `none` and a nil schema pointer `some none` under a key. -/
structure SchemaStorageM where
  schemas : Option (List (String × Option Schema))

/-- The fields of the values validator that `ComposeValuesFromSchemas` reads. -/
structure ValuesValidatorM where
  moduleSchemaStorages : List (String × SchemaStorageM)
  globalSchemaStorage : SchemaStorageM

/-- Function `ComposeValuesFromSchemas` from the validator lookup (line 111)
through value generation (line 143).  The validator construction
(`NewValuesValidator`, file I/O) is the external input `validator`;
`ToLowerCamel` lives outside `src/` and is passed in as
`camelizedModuleName`; the trailing `helmFormatModuleImages` call
(digest file I/O and render-context assembly) is outside this model,
which stops at the generated `rawValues`. -/
def composeValuesFromSchemas (fuel : Nat) (moduleName camelizedModuleName : String)
    (validator : Option ValuesValidatorM) : RRes (Option (SMap Value)) :=
  match validator with
  | none => .ok none
  | some vv =>
    match alookup moduleName vv.moduleSchemaStorages with
    | none => .ok none
    | some storage =>
      match storage.schemas with
      | none => .ok none
      | some schemas =>
        match alookup "values" schemas with
        | none => .goError ("cannot find openapi values schema for module " ++ moduleName)
        | some none => .goError ("cannot find openapi values schema for module " ++ moduleName)
        | some (some valuesSchema) =>
          let moduleSchema := valuesSchema.setDefault (some (.objV []))
          let globalBase :=
            match vv.globalSchemaStorage.schemas with
            | none => Schema.empty
            | some gs =>
              match alookup "values" gs with
              | some (some v) => v
              | _ => Schema.empty
          let globalSchema := globalBase.setDefault (some (.objV []))
          let combined := Schema.empty.setProperties
            [(camelizedModuleName, moduleSchema), ("global", globalSchema)]
          match parseProperties fuel combined with
          | .ok t => .ok (some t)
          | .goError m => .goError ("generate values: " ++ m)
          | .runtimeFault => .runtimeFault
          | .noFuel => .noFuel

lemma alookup_ainsert_self {α : Type} (k : String) (v : α) (l : SMap α) :
    alookup k (ainsert k v l) = some v := by
  induction l with
  | nil => simp [ainsert, alookup]
  | cons hd tl ih =>
    obtain ⟨k', v'⟩ := hd
    by_cases hk : k' = k
    · subst hk; simp [ainsert, alookup]
    · simp [ainsert, alookup, hk, ih]

lemma alookup_ainsert_ne {α : Type} {k k' : String} (hne : k ≠ k') (v : α)
    (l : SMap α) : alookup k' (ainsert k v l) = alookup k' l := by
  induction l with
  | nil => simp [ainsert, alookup, hne]
  | cons hd tl ih =>
    obtain ⟨k0, v0⟩ := hd
    by_cases hk : k0 = k
    · subst hk; simp [ainsert, alookup, hne]
    · simp [ainsert, alookup, hk, ih]

lemma alookup_eq_none_of_not_mem {α : Type} {k : String} {l : SMap α}
    (h : k ∉ l.map Prod.fst) : alookup k l = none := by
  induction l with
  | nil => rfl
  | cons hd tl ih =>
    obtain ⟨k0, v0⟩ := hd
    simp only [List.map_cons, List.mem_cons] at h
    push_neg at h
    have hne : ¬k0 = k := fun he => h.1 he.symm
    simp [alookup, hne, ih h.2]

lemma mergo_alookup_of_not_mem {k : String} {src : SMap Value}
    (h : alookup k src = none) (dst : SMap Value) :
    alookup k (mergoMergeObj dst src) = alookup k dst := by
  induction src generalizing dst with
  | nil => simp [mergoMergeObj]
  | cons hd rest ih =>
    obtain ⟨k0, sv⟩ := hd
    have hk : k0 ≠ k := by
      intro he; subst he; simp [alookup] at h
    have hrest : alookup k rest = none := by
      simpa [alookup, hk] using h
    cases hdst : alookup k0 dst with
    | none => simp [mergoMergeObj, hdst, ih hrest, alookup_ainsert_ne hk]
    | some dv => simp [mergoMergeObj, hdst, ih hrest, alookup_ainsert_ne hk]

lemma mergo_alookup_of_mem {k : String} {src : SMap Value} {sv : Value}
    (hnd : (src.map Prod.fst).Nodup) (h : alookup k src = some sv)
    (dst : SMap Value) :
    alookup k (mergoMergeObj dst src)
      = some (match alookup k dst with | none => sv | some dv => mergoElem dv sv) := by
  induction src generalizing dst with
  | nil => simp [alookup] at h
  | cons hd rest ih =>
    obtain ⟨k0, s0⟩ := hd
    simp only [List.map_cons, List.nodup_cons] at hnd
    by_cases hk : k0 = k
    · subst hk
      have hs : s0 = sv := by simpa [alookup] using h
      subst hs
      have hrest : alookup k0 rest = none := alookup_eq_none_of_not_mem hnd.1
      cases hdst : alookup k0 dst with
      | none =>
        simp [mergoMergeObj, hdst, mergo_alookup_of_not_mem hrest,
          alookup_ainsert_self]
      | some dv =>
        simp [mergoMergeObj, hdst, mergo_alookup_of_not_mem hrest,
          alookup_ainsert_self]
    · have hrest : alookup k rest = some sv := by simpa [alookup, hk] using h
      cases hdst : alookup k0 dst with
      | none =>
        simp only [mergoMergeObj, hdst]
        rw [ih hnd.2 hrest, alookup_ainsert_ne hk]
      | some dv =>
        simp only [mergoMergeObj, hdst]
        rw [ih hnd.2 hrest, alookup_ainsert_ne hk]

lemma setProperties_properties (s : Schema) (pr : SMap Schema) :
    (s.setProperties pr).properties = pr := by
  cases s; rfl

lemma setProperties_oneOf (s : Schema) (pr : SMap Schema) :
    (s.setProperties pr).oneOf = s.oneOf := by
  cases s; rfl

lemma setProperties_anyOf (s : Schema) (pr : SMap Schema) :
    (s.setProperties pr).anyOf = s.anyOf := by
  cases s; rfl

lemma setProperties_allOf (s : Schema) (pr : SMap Schema) :
    (s.setProperties pr).allOf = s.allOf := by
  cases s; rfl

lemma setComps_properties (s : Schema) (oo ao al : Option (List Schema)) :
    (s.setComps oo ao al).properties = s.properties := by
  cases s; rfl

lemma setComps_oneOf (s : Schema) (oo ao al : Option (List Schema)) :
    (s.setComps oo ao al).oneOf = oo := by
  cases s; rfl

lemma setComps_anyOf (s : Schema) (oo ao al : Option (List Schema)) :
    (s.setComps oo ao al).anyOf = ao := by
  cases s; rfl

lemma setComps_allOf (s : Schema) (oo ao al : Option (List Schema)) :
    (s.setComps oo ao al).allOf = al := by
  cases s; rfl

lemma overlay_alookup_of_not_mem {k : String} {src : SMap Schema}
    (h : alookup k src = none) (dst : SMap Schema) :
    alookup k (overlayProps dst src) = alookup k dst := by
  induction src generalizing dst with
  | nil => simp [overlayProps]
  | cons hd rest ih =>
    obtain ⟨k0, v0⟩ := hd
    have hk : k0 ≠ k := by
      intro he; subst he; simp [alookup] at h
    have hrest : alookup k rest = none := by
      simpa [alookup, hk] using h
    have step : overlayProps dst ((k0, v0) :: rest)
        = overlayProps (ainsert k0 v0 dst) rest := rfl
    rw [step, ih hrest, alookup_ainsert_ne hk]

lemma overlay_alookup_of_mem {k : String} {src : SMap Schema} {v : Schema}
    (hnd : (src.map Prod.fst).Nodup) (h : alookup k src = some v)
    (dst : SMap Schema) :
    alookup k (overlayProps dst src) = some v := by
  induction src generalizing dst with
  | nil => simp [alookup] at h
  | cons hd rest ih =>
    obtain ⟨k0, v0⟩ := hd
    simp only [List.map_cons, List.nodup_cons] at hnd
    have step : overlayProps dst ((k0, v0) :: rest)
        = overlayProps (ainsert k0 v0 dst) rest := rfl
    by_cases hk : k0 = k
    · subst hk
      have hv : v0 = v := by simpa [alookup] using h
      subst hv
      have hrest : alookup k0 rest = none := alookup_eq_none_of_not_mem hnd.1
      rw [step, overlay_alookup_of_not_mem hrest, alookup_ainsert_self]
    · have hrest : alookup k rest = some v := by simpa [alookup, hk] using h
      rw [step, ih hnd.2 hrest]

lemma mergeSchemas_foldl_props (k : String) :
    ∀ (bs : List Schema) (acc : Schema),
    (∀ b ∈ bs, (b.properties.map Prod.fst).Nodup) →
    alookup k (bs.foldl
        (fun acc b =>
          (acc.setProperties (overlayProps acc.properties b.properties)).setComps
            b.oneOf b.anyOf b.allOf) acc).properties
      = bs.foldl (fun o b =>
          match alookup k b.properties with
          | some v => some v
          | none => o) (alookup k acc.properties) := by
  intro bs
  induction bs with
  | nil => intro acc _; rfl
  | cons b rest ih =>
    intro acc hnd
    have hb : (b.properties.map Prod.fst).Nodup := hnd b (by simp)
    have hrest : ∀ b' ∈ rest, (b'.properties.map Prod.fst).Nodup :=
      fun b' hb' => hnd b' (by simp [hb'])
    simp only [List.foldl_cons]
    rw [ih _ hrest]
    congr 1
    rw [setComps_properties, setProperties_properties]
    cases hlk : alookup k b.properties with
    | none => simp [overlay_alookup_of_not_mem hlk]
    | some v => simp [overlay_alookup_of_mem hb hlk]

lemma lastBranch_cons_some (x : Schema) (l : List Schema) :
    ∃ y, lastBranch (x :: l) = some y := by
  induction l generalizing x with
  | nil => exact ⟨x, rfl⟩
  | cons z l ih => simpa [lastBranch] using ih z

lemma mergeSchemas_foldl_comps :
    ∀ (bs : List Schema) (acc : Schema),
    (bs.foldl
        (fun acc b =>
          (acc.setProperties (overlayProps acc.properties b.properties)).setComps
            b.oneOf b.anyOf b.allOf) acc).oneOf
        = (match lastBranch bs with | none => acc.oneOf | some b => b.oneOf)
    ∧ (bs.foldl
        (fun acc b =>
          (acc.setProperties (overlayProps acc.properties b.properties)).setComps
            b.oneOf b.anyOf b.allOf) acc).anyOf
        = (match lastBranch bs with | none => acc.anyOf | some b => b.anyOf)
    ∧ (bs.foldl
        (fun acc b =>
          (acc.setProperties (overlayProps acc.properties b.properties)).setComps
            b.oneOf b.anyOf b.allOf) acc).allOf
        = (match lastBranch bs with | none => acc.allOf | some b => b.allOf) := by
  intro bs
  induction bs with
  | nil => intro acc; exact ⟨rfl, rfl, rfl⟩
  | cons b rest ih =>
    intro acc
    simp only [List.foldl_cons]
    obtain ⟨h1, h2, h3⟩ := ih
      ((acc.setProperties (overlayProps acc.properties b.properties)).setComps
        b.oneOf b.anyOf b.allOf)
    cases rest with
    | nil =>
      refine ⟨?_, ?_, ?_⟩ <;>
        simp [lastBranch, List.foldl, setComps_oneOf, setComps_anyOf, setComps_allOf]
    | cons b' rest' =>
      obtain ⟨y, hy⟩ := lastBranch_cons_some b' rest'
      have hcc : lastBranch (b :: b' :: rest') = lastBranch (b' :: rest') := rfl
      refine ⟨?_, ?_, ?_⟩
      · rw [h1, hcc, hy]
      · rw [h2, hcc, hy]
      · rw [h3, hcc, hy]

lemma parsePropsList_alookup_none (resolver : Schema → RRes (Option Value))
    (k : String) :
    ∀ (props : SMap Schema) (acc : SMap Value),
    (∀ p, (k, p) ∈ props → resolver p = .ok none) →
    alookup k acc = none →
    ∀ m, parsePropsList resolver props acc = .ok m → alookup k m = none := by
  intro props
  induction props with
  | nil =>
    intro acc _ hacc m hm
    have : acc = m := by simpa [parsePropsList] using hm
    exact this ▸ hacc
  | cons hd rest ih =>
    intro acc hall hacc m hm
    obtain ⟨k0, p0⟩ := hd
    by_cases hk : k0 = k
    · subst hk
      have h0 : resolver p0 = .ok none := hall p0 (by simp)
      rw [parsePropsList, h0] at hm
      exact ih acc (fun p hp => hall p (by simp [hp])) hacc m hm
    · cases hres : resolver p0 with
      | ok ov =>
        cases ov with
        | none =>
          rw [parsePropsList, hres] at hm
          exact ih acc (fun p hp => hall p (by simp [hp])) hacc m hm
        | some v =>
          rw [parsePropsList, hres] at hm
          have hacc' : alookup k (ainsert k0 v acc) = none := by
            rw [alookup_ainsert_ne hk]; exact hacc
          exact ih (ainsert k0 v acc) (fun p hp => hall p (by simp [hp])) hacc' m hm
      | goError msg => rw [parsePropsList, hres] at hm; cases hm
      | runtimeFault => rw [parsePropsList, hres] at hm; cases hm
      | noFuel => rw [parsePropsList, hres] at hm; cases hm

/-- C5: for every base schema and ordered branch sequence (each branch's
property keys distinct, as in a Go map), the merged node's properties are the
base's overlaid by each branch's in order with last-write-wins on a key, and
its `oneOf`/`anyOf`/`allOf` equal exactly the final branch's own composition
fields, cleared when the branch sequence is empty. -/
theorem mergeSchemas_last_write_wins (root : Schema) (bs : List Schema)
    (k : String) (hnd : ∀ b ∈ bs, (b.properties.map Prod.fst).Nodup) :
    alookup k (mergeSchemas (some root) bs).properties
      = bs.foldl (fun o b =>
          match alookup k b.properties with
          | some v => some v
          | none => o) (alookup k root.properties)
    ∧ (mergeSchemas (some root) bs).oneOf
        = (match lastBranch bs with | none => none | some b => b.oneOf)
    ∧ (mergeSchemas (some root) bs).anyOf
        = (match lastBranch bs with | none => none | some b => b.anyOf)
    ∧ (mergeSchemas (some root) bs).allOf
        = (match lastBranch bs with | none => none | some b => b.allOf) := by
  have hprops := mergeSchemas_foldl_props k bs ((root.setComps none none none)) hnd
  obtain ⟨h1, h2, h3⟩ := mergeSchemas_foldl_comps bs (root.setComps none none none)
  refine ⟨?_, ?_, ?_, ?_⟩
  · rw [show mergeSchemas (some root) bs
        = bs.foldl (fun acc b =>
            (acc.setProperties (overlayProps acc.properties b.properties)).setComps
              b.oneOf b.anyOf b.allOf) (root.setComps none none none) from rfl]
    rw [hprops, setComps_properties]
  · rw [show mergeSchemas (some root) bs
        = bs.foldl (fun acc b =>
            (acc.setProperties (overlayProps acc.properties b.properties)).setComps
              b.oneOf b.anyOf b.allOf) (root.setComps none none none) from rfl]
    rw [h1, setComps_oneOf]
  · rw [show mergeSchemas (some root) bs
        = bs.foldl (fun acc b =>
            (acc.setProperties (overlayProps acc.properties b.properties)).setComps
              b.oneOf b.anyOf b.allOf) (root.setComps none none none) from rfl]
    rw [h2, setComps_anyOf]
  · rw [show mergeSchemas (some root) bs
        = bs.foldl (fun acc b =>
            (acc.setProperties (overlayProps acc.properties b.properties)).setComps
              b.oneOf b.anyOf b.allOf) (root.setComps none none none) from rfl]
    rw [h3, setComps_allOf]

def w5b1 : Schema := Schema.empty.setProperties
  [("a", Schema.empty.setDefault (some (.intV 1)))]

def w5b2 : Schema := Schema.empty.setProperties
  [("a", Schema.empty.setDefault (some (.intV 2))),
   ("b", Schema.empty.setDefault (some (.intV 3)))]

theorem mergeSchemas_last_write_wins_witness :
    alookup "a" (mergeSchemas (some Schema.empty) [w5b1, w5b2]).properties
      = some (Schema.empty.setDefault (some (.intV 2))) := by
  have h := (mergeSchemas_last_write_wins Schema.empty [w5b1, w5b2] "a"
    (by
      intro b hb
      simp only [List.mem_cons, List.not_mem_nil, or_false] at hb
      rcases hb with rfl | rfl <;>
        simp [w5b1, w5b2, Schema.empty, Schema.setProperties, Schema.setDefault,
          Schema.properties])).1
  rw [h]
  rfl

/-- C7: for every property schema whose `x-examples` extension is absent and
whose enum sequence is non-empty, resolution yields the default when set and
the first enum element otherwise (via the enumeration rule, not the
explicit-default rule). -/
theorem parseProperty_enum_rule (fuel : Nat) (p : Schema) (e : Value)
    (es : List Value)
    (hx : alookup ExamplesKey p.extensions = none)
    (he : p.enumVals = e :: es) :
    parseProperty fuel p = .ok (some (p.defaultVal.getD e)) := by
  simp [parseProperty, parsePropertyAux, extExamplesVal, hx, he, parseEnumAux]

def w7p : Schema :=
  Schema.mk [] [] none [.strV "a", .strV "b", .strV "c"] (some (.strV "b")) []
    none none none

theorem parseProperty_enum_rule_witness :
    parseProperty 1 w7p = .ok (some (.strV "b")) :=
  parseProperty_enum_rule 1 w7p (.strV "a") [.strV "b", .strV "c"] rfl rfl

/-- C9: a property that resolves to no value contributes no entry (no null
placeholder) under its key in the generated mapping. -/
theorem parseProperties_omits_valueless (fuel : Nat) (node : Schema)
    (k : String)
    (hall : ∀ p, (k, p) ∈ node.properties → parseProperty fuel p = .ok none)
    (m : SMap Value) (hm : parseProperties (fuel + 1) node = .ok m) :
    alookup k m = none := by
  have hm' : parsePropsList (parsePropertyAux (fun s => parseProperties fuel s))
      node.properties [] = .ok m := hm
  exact parsePropsList_alookup_none _ k node.properties [] hall rfl m hm'

def w9s : Schema := Schema.mk [] [] none [] none [] none none (some [])

def w9t : Schema := Schema.empty.setDefault (some (.intV 5))

def w9node : Schema := Schema.empty.setProperties [("x", w9s), ("y", w9t)]

theorem parseProperties_omits_valueless_witness :
    alookup "x" [("y", Value.intV 5)] = none := by
  refine parseProperties_omits_valueless 1 w9node "x" ?_ [("y", Value.intV 5)] rfl
  intro p hp
  have hp' : ("x", p) ∈ [("x", w9s), ("y", w9t)] := hp
  simp only [List.mem_cons, List.not_mem_nil, or_false, Prod.mk.injEq] at hp'
  rcases hp' with ⟨-, rfl⟩ | ⟨hxy, -⟩
  · rfl
  · exact absurd hxy (by decide)

def c1branch : Schema := Schema.empty.setProperties
  [("a", Schema.empty.setDefault (some (.intV 1)))]

def c1prop : Schema := Schema.mk [] [] none [] none [] (some [c1branch]) none
  (some [])

/-- C1 counterexample: a property with a non-empty `oneOf` on which rules 1-5
fail but whose `allOf` is also set (non-nil) produces no value — the `AllOf`
dispatch case precedes the `OneOf` case — while the claim predicts the merged
`oneOf` mapping `{a: 1}`. -/
theorem parseProperty_allOf_preempts_oneOf_cex :
    parseProperty 3 c1prop = .ok none
    ∧ (RRes.ok (none : Option Value))
        ≠ .ok (some (.objV [("a", .intV 1)])) := by
  constructor
  · rfl
  · simp

/-- C1 amended: when rules 1-5 fail, `allOf` is nil and `oneOf` is a
non-empty sequence, resolution returns the mapping obtained by merging the
`oneOf` branches over a clone of the property (composition fields cleared)
and recursively resolving the composite's properties as an object. -/
theorem parseProperty_oneOf_rule (fuel : Nat) (p : Schema) (bs : List Schema)
    (hx : extExamplesVal p = none)
    (he : p.enumVals = [])
    (hobj : p.types.contains ObjectKey = false)
    (hdef : p.defaultVal = none)
    (harr : p.types.contains ArrayObject = false ∨ itemsSchemaOf p = none)
    (hallOf : p.allOf = none)
    (honeOf : p.oneOf = some bs)
    (_hne : bs ≠ []) :
    parseProperty fuel p
      = rmap (fun t => some (.objV t))
          (parseProperties fuel (mergeSchemas (some p) bs)) := by
  have hobj' : ObjectKey ∉ p.types := by simpa using hobj
  have harr' : ¬(ArrayObject ∈ p.types ∧ (itemsSchemaOf p).isSome = true) := by
    rcases harr with h | h
    · intro hc; exact absurd hc.1 (by simpa using h)
    · intro hc; rw [h] at hc; simp at hc
  simp [parseProperty, parsePropertyAux, hx, he, hobj', hdef, harr', hallOf, honeOf,
    parseOneOfAux]

def w1branch : Schema := Schema.empty.setProperties
  [("a", Schema.empty.setDefault (some (.intV 1)))]

def w1prop : Schema := Schema.mk [] [] none [] none [] (some [w1branch]) none none

theorem parseProperty_oneOf_rule_witness :
    parseProperty 2 w1prop
      = rmap (fun t => some (.objV t))
          (parseProperties 2 (mergeSchemas (some w1prop) [w1branch])) :=
  parseProperty_oneOf_rule 2 w1prop [w1branch] rfl rfl rfl rfl (Or.inl rfl) rfl rfl
    (by simp)

def c2vv : ValuesValidatorM :=
  { moduleSchemaStorages := [("m", { schemas := some [("values", some Schema.empty)] })]
    globalSchemaStorage := { schemas := some [] } }

/-- C2 counterexample: the module schema document has its `"values"` key but
the global schema document lacks it; generation succeeds with an empty
substitute global schema instead of failing, contradicting the claim that
either missing `"values"` key is an error. -/
theorem composeValues_global_missing_cex :
    composeValuesFromSchemas 3 "m" "m" (some c2vv)
      = .ok (some [("m", .objV []), ("global", .objV [])])
    ∧ isGoErrorB (composeValuesFromSchemas 3 "m" "m" (some c2vv)) = false := by
  exact ⟨rfl, rfl⟩

/-- C2 amended: the entry point returns the missing-schema error exactly when
the module's own schema storage is present (with a non-nil schema map) and its
`"values"` entry is absent or a nil pointer; a global schema document without
`"values"` proceeds with an empty substitute schema. -/
theorem composeValues_module_values_required (fuel : Nat) (mn cam : String)
    (vv : ValuesValidatorM) (storage : SchemaStorageM)
    (schemas : List (String × Option Schema))
    (hs : alookup mn vv.moduleSchemaStorages = some storage)
    (hsch : storage.schemas = some schemas)
    (hv : alookup "values" schemas = none ∨ alookup "values" schemas = some none) :
    composeValuesFromSchemas fuel mn cam (some vv)
      = .goError ("cannot find openapi values schema for module " ++ mn) := by
  rcases hv with h | h <;> simp [composeValuesFromSchemas, hs, hsch, h]

def w2vv : ValuesValidatorM :=
  { moduleSchemaStorages := [("m", { schemas := some [("other", some Schema.empty)] })]
    globalSchemaStorage := { schemas := some [] } }

theorem composeValues_module_values_required_witness :
    composeValuesFromSchemas 1 "m" "m" (some w2vv)
      = .goError ("cannot find openapi values schema for module " ++ "m") :=
  composeValues_module_values_required 1 "m" "m" w2vv
    { schemas := some [("other", some Schema.empty)] }
    [("other", some Schema.empty)] rfl rfl (Or.inl rfl)

def c4prop : Schema :=
  Schema.mk [ArrayObject] [] (some (some Schema.empty)) [] none [] none none none

/-- C4 counterexample: an array property whose item schema has no default and
no properties produces the empty mapping as its value (the code only checks
the recursive result against nil, which it never is here), while the claim
says an empty mapping yields no value and an omitted key. -/
theorem parseArray_empty_mapping_cex :
    parseProperty 2 c4prop = .ok (some (.objV []))
    ∧ RRes.ok (some (Value.objV [])) ≠ (.ok none : RRes (Option Value)) := by
  exact ⟨rfl, by simp⟩

/-- C4 amended: for an array property (rules 1-4 failing, `items` schema set):
the item default is returned directly when set (a scalar is not wrapped);
otherwise the item schema's properties are recursively resolved and the
resulting mapping is always produced, including when it is empty. -/
theorem parseProperty_array_rule (fuel : Nat) (p : Schema) (isch : Schema)
    (hx : extExamplesVal p = none)
    (he : p.enumVals = [])
    (hobj : p.types.contains ObjectKey = false)
    (hdef : p.defaultVal = none)
    (harr : p.types.contains ArrayObject = true)
    (hit : itemsSchemaOf p = some isch) :
    (∀ d, isch.defaultVal = some d → parseProperty fuel p = .ok (some d))
    ∧ (isch.defaultVal = none →
        parseProperty fuel p
          = rmap (fun t => some (.objV t)) (parseProperties fuel isch)) := by
  have hobj' : ObjectKey ∉ p.types := by simpa using hobj
  have harr' : ArrayObject ∈ p.types := by simpa using harr
  constructor
  · intro d hd
    simp [parseProperty, parsePropertyAux, hx, he, hobj', hdef, harr', hit,
      parseArrayAux, hd]
  · intro hd
    simp only [parseProperty, parsePropertyAux, hx, he, hobj', hdef, harr', hit,
      parseArrayAux, hd, parsePropertiesOpt, Option.isSome_none, Option.isSome_some]
    simp [hx, he, hobj', hdef, harr', hit, hd]
    cases parseProperties fuel isch <;> simp [rmap]

def w4item : Schema := Schema.empty.setDefault (some (.strV "x"))

def w4prop : Schema :=
  Schema.mk [ArrayObject] [] (some (some w4item)) [] none [] none none none

theorem parseProperty_array_rule_witness :
    parseProperty 2 w4prop = .ok (some (.strV "x")) :=
  (parseProperty_array_rule 2 w4prop w4item rfl rfl rfl rfl rfl rfl).1
    (.strV "x") rfl

/-- C6: resolving a `oneOf`/`anyOf` property never mutates the caller's
schema cell (nor any other pre-existing cell): the merge's field clearing and
property overlay hit only the freshly allocated deep copy, so every heap
address that existed before the call holds its old value afterwards; the
value computed is the resolution of the merged clone. -/
theorem parseOneOf_no_mutation (fuel : Nat) (h : List Schema) (addr : Nat) :
    (∀ i, i < h.length → (parseOneOfHeap fuel h addr).1[i]? = h[i]?)
    ∧ (∀ i, i < h.length → (parseAnyOfHeap fuel h addr).1[i]? = h[i]?)
    ∧ (∀ p, h[addr]? = some p →
        (parseOneOfHeap fuel h addr).2
          = parseProperties fuel (mergeSchemas (some p) (p.oneOf.getD []))
        ∧ (parseAnyOfHeap fuel h addr).2
          = parseProperties fuel (mergeSchemas (some p) (p.anyOf.getD []))) := by
  refine ⟨?_, ?_, ?_⟩
  · intro i hi
    cases hp : h[addr]? with
    | none => simp [parseOneOfHeap, hp]
    | some p =>
      have hne : h.length ≠ i := fun he => by omega
      have hread : (h ++ [p])[h.length]? = some p := by
        rw [List.getElem?_append_right (Nat.le_refl _)]; simp
      have hset : ((h ++ [p]).set h.length
          (mergeSchemas (some p) (p.oneOf.getD [])))[h.length]?
          = some (mergeSchemas (some p) (p.oneOf.getD [])) :=
        List.getElem?_set_eq_of_lt _ (by simp)
      simp only [parseOneOfHeap, hp, mergeSchemasHeap, hread, hset]
      rw [List.getElem?_set_ne hne, List.getElem?_append_left hi]
  · intro i hi
    cases hp : h[addr]? with
    | none => simp [parseAnyOfHeap, hp]
    | some p =>
      have hne : h.length ≠ i := fun he => by omega
      have hread : (h ++ [p])[h.length]? = some p := by
        rw [List.getElem?_append_right (Nat.le_refl _)]; simp
      have hset : ((h ++ [p]).set h.length
          (mergeSchemas (some p) (p.anyOf.getD [])))[h.length]?
          = some (mergeSchemas (some p) (p.anyOf.getD [])) :=
        List.getElem?_set_eq_of_lt _ (by simp)
      simp only [parseAnyOfHeap, hp, mergeSchemasHeap, hread, hset]
      rw [List.getElem?_set_ne hne, List.getElem?_append_left hi]
  · intro p hp
    have hread : (h ++ [p])[h.length]? = some p := by
      rw [List.getElem?_append_right (Nat.le_refl _)]
      simp
    constructor
    · have hset : ((h ++ [p]).set h.length
          (mergeSchemas (some p) (p.oneOf.getD [])))[h.length]?
          = some (mergeSchemas (some p) (p.oneOf.getD [])) :=
        List.getElem?_set_eq_of_lt _ (by simp)
      simp [parseOneOfHeap, hp, mergeSchemasHeap, hread, hset]
    · have hset : ((h ++ [p]).set h.length
          (mergeSchemas (some p) (p.anyOf.getD [])))[h.length]?
          = some (mergeSchemas (some p) (p.anyOf.getD [])) :=
        List.getElem?_set_eq_of_lt _ (by simp)
      simp [parseAnyOfHeap, hp, mergeSchemasHeap, hread, hset]

def w6prop : Schema := Schema.mk [] [] none [] none []
  (some [Schema.empty.setProperties [("a", Schema.empty.setDefault (some (.intV 1)))]])
  none none

theorem parseOneOf_no_mutation_witness :
    (parseOneOfHeap 2 [w6prop] 0).1[0]? = [w6prop][0]? :=
  (parseOneOf_no_mutation 2 [w6prop] 0).1 0 (by decide)

def c8prop : Schema :=
  Schema.mk [ObjectKey]
    [("y", Schema.empty.setDefault (some (.objV [("z", .intV 2)])))]
    none [] none [("x-examples", .objV [("y", .objV [("w", .intV 9)])])]
    none none none

/-- C8 counterexample: the example key `y` carries a mapping and the
synthesized value for `y` is also a mapping; the merge combines them key by
key (the synthesized sub-key `z` survives) instead of replacing the
synthesized value with the example's, as the claim requires. -/
theorem parseExamples_deep_merge_cex :
    parseProperty 2 c8prop
      = .ok (some (.objV [("y", .objV [("z", .intV 2), ("w", .intV 9)])]))
    ∧ (Value.objV [("y", Value.objV [("z", Value.intV 2), ("w", Value.intV 9)])])
        ≠ .objV [("y", .objV [("w", .intV 9)])] := by
  constructor
  · simp [c8prop, parseProperty, parsePropertyAux, parseExamplesAux, exampleStep,
      extExamplesVal, parseProperties, parsePropsList, Schema.extensions,
      Schema.empty, Schema.setDefault, alookup, ExamplesKey, Value.isNullB,
      Schema.types, ObjectKey, Schema.properties, Schema.enumVals,
      Schema.defaultVal, mergoMergeObj, mergoElem, ainsert, rmap]
  · simp

/-- C8 amended: with an object-typed property and a mapping candidate
example, the result merges the example over the synthesized sub-mapping with
mergo's override rules, applied per example key: a key absent from the
synthesized mapping is inserted; a non-mapping example value replaces the
synthesized value; when both sides are mappings they are merged recursively
key by key (synthesized sub-keys absent from the example survive); a mapping
example value meeting a non-mapping synthesized value replaces it only when
that synthesized value is empty, otherwise the synthesized value survives;
synthesized keys absent from the example are retained. -/
theorem parseProperty_examples_object_merge (fuel : Nat) (p : Schema)
    (cf t : SMap Value)
    (hc : exampleCandidate p = some (.objV cf))
    (hobj : p.types.contains ObjectKey = true)
    (ht : parseProperties fuel p = .ok t) :
    parseProperty fuel p = .ok (some (.objV (mergoMergeObj t cf)))
    ∧ (∀ k, alookup k cf = none → alookup k (mergoMergeObj t cf) = alookup k t)
    ∧ (∀ k sv, (cf.map Prod.fst).Nodup → alookup k cf = some sv →
        alookup k (mergoMergeObj t cf)
          = some (match alookup k t with
                  | none => sv
                  | some dv => mergoElem dv sv))
    ∧ (∀ dv sv, sv.isObjB = false → mergoElem dv sv = sv)
    ∧ (∀ df sf, mergoElem (.objV df) (.objV sf) = .objV (mergoMergeObj df sf))
    ∧ (∀ dv sf, dv.isObjB = false → isEmptyVal dv = true →
        mergoElem dv (.objV sf) = .objV sf)
    ∧ (∀ dv sf, dv.isObjB = false → isEmptyVal dv = false →
        mergoElem dv (.objV sf) = dv) := by
  have hobj' : ObjectKey ∈ p.types := by simpa using hobj
  refine ⟨?_, ?_, ?_, ?_, ?_, ?_, ?_⟩
  · cases hveq : alookup ExamplesKey p.extensions with
    | none => rw [exampleCandidate, hveq] at hc; simp at hc
    | some v =>
      rw [exampleCandidate, hveq] at hc
      simp only [Option.getD_some] at hc
      cases v with
      | null => simp at hc
      | boolV b => simp at hc
      | intV n => simp at hc
      | strV s => simp at hc
      | arrV es =>
        cases es with
        | nil => simp at hc
        | cons e es' =>
          have he : e = .objV cf := by simpa using hc
          subst he
          simp [parseProperty, parsePropertyAux, extExamplesVal, hveq,
            Value.isNullB, parseExamplesAux, exampleStep, hobj', ht]
      | objV fs =>
        have hfs : fs = cf := by simpa using hc
        subst hfs
        simp [parseProperty, parsePropertyAux, extExamplesVal, hveq,
          Value.isNullB, parseExamplesAux, exampleStep, hobj', ht]
  · intro k hk
    exact mergo_alookup_of_not_mem hk t
  · intro k sv hnd hk
    exact mergo_alookup_of_mem hnd hk t
  · intro dv sv hsv
    cases sv <;> cases dv <;> simp_all [mergoElem, Value.isObjB]
  · intro df sf
    simp [mergoElem]
  · intro dv sf hdv hemp
    cases dv <;> simp_all [mergoElem, Value.isObjB, isEmptyVal]
  · intro dv sf hdv hemp
    cases dv <;> simp_all [mergoElem, Value.isObjB, isEmptyVal]

def w8prop : Schema :=
  Schema.mk [ObjectKey] [("y", Schema.empty.setDefault (some (.intV 2)))]
    none [] none [("x-examples", .objV [("x", .intV 1)])] none none none

theorem parseProperty_examples_object_merge_witness :
    parseProperty 2 w8prop
      = .ok (some (.objV (mergoMergeObj [("y", .intV 2)] [("x", .intV 1)]))) :=
  (parseProperty_examples_object_merge 2 w8prop [("x", .intV 1)] [("y", .intV 2)]
    rfl rfl rfl).1

def c10prop : Schema :=
  Schema.mk [] [] none [] none [("x-examples", .arrV [])] none none none

/-- C10 counterexample: a property whose `x-examples` extension holds the
empty sequence makes resolution hit the out-of-range access `conv[0]` — a
runtime fault — contradicting totality over all sequences. -/
theorem parseExamples_empty_seq_cex :
    parseProperty 1 c10prop = .runtimeFault := rfl

/-- C10 amended: for a non-empty `x-examples` sequence the first-element
access succeeds and resolution continues with the head candidate; for the
empty sequence the access goes out of range (runtime fault). -/
theorem parseProperty_examples_seq_access (fuel : Nat) (p : Schema) :
    (∀ e es, alookup ExamplesKey p.extensions = some (.arrV (e :: es)) →
      parseProperty fuel p = exampleStep (fun s => parseProperties fuel s) p e)
    ∧ (alookup ExamplesKey p.extensions = some (.arrV []) →
      parseProperty fuel p = .runtimeFault) := by
  constructor
  · intro e es hx
    simp [parseProperty, parsePropertyAux, extExamplesVal, hx, Value.isNullB,
      parseExamplesAux]
  · intro hx
    simp [parseProperty, parsePropertyAux, extExamplesVal, hx, Value.isNullB,
      parseExamplesAux]

def w10prop : Schema :=
  Schema.mk [] [] none [] none [("x-examples", .arrV [.strV "ex"])] none none none

theorem parseProperty_examples_seq_access_witness :
    parseProperty 1 w10prop
      = exampleStep (fun s => parseProperties 1 s) w10prop (.strV "ex") :=
  (parseProperty_examples_seq_access 1 w10prop).1 (.strV "ex") [] rfl
